import Mathlib

/-!
Shallow embedding of the Speech-to-Text converter (src/0099.py,
class SpeechToTextConverter) for verification of its specification.

Modelling conventions, used throughout:

* Python dicts with a fixed key set become Lean structures whose fields are
  `Option`-valued when the source may omit the key.
* SQLite REAL values (confidence) are never computed with by the source —
  they are stored and rendered — so they are modelled by their decimal
  rendering as a `String` (e.g. the fixed placeholder 0.8 is "0.8").
* SQLite DATETIME DEFAULT CURRENT_TIMESTAMP values are totally ordered
  strings ("YYYY-MM-DD HH:MM:SS", second resolution, lexicographic =
  chronological); they are modelled as `Nat` supplied by the caller as a
  clock input, rendered by `toString`.
* Exceptions that the source lets escape to the caller become `Except`;
  exceptions the source catches become ordinary control flow; external
  effects (network calls, microphone, the Whisper model) become explicit
  outcome values passed in as oracles.
* The metadata column holds `json.dumps` of a string-keyed mapping; the
  mapping is modelled as an association list `List (String × String)`
  (values restricted to strings; the source never writes a non-string
  value into it).
-/

namespace STT

/-! ## Generic string helpers: substring search -/

/-- Whether `needle` occurs as a leading segment of `hay` (on char lists). -/
def leadsList : List Char → List Char → Bool
  | [], _ => true
  | _ :: _, [] => false
  | c :: cs, d :: ds => c = d && leadsList cs ds

/-- Whether `needle` occurs contiguously anywhere inside `hay` (on char lists). -/
def containsSeq (needle : List Char) : List Char → Bool
  | [] => needle.isEmpty
  | d :: ds => leadsList needle (d :: ds) || containsSeq needle ds

/-- Whether `needle` occurs contiguously inside the string `hay`. -/
def containsStr (hay needle : String) : Bool :=
  containsSeq needle.data hay.data

theorem leadsList_append (n b : List Char) : leadsList n (n ++ b) = true := by
  induction n with
  | nil => rfl
  | cons c cs ih => simp [leadsList, ih]

theorem containsSeq_append_middle (a n b : List Char) :
    containsSeq n (a ++ n ++ b) = true := by
  induction a with
  | nil =>
    simp only [List.nil_append]
    cases n with
    | nil => cases b <;> simp [containsSeq, leadsList]
    | cons c cs =>
      simp only [List.cons_append, containsSeq, Bool.or_eq_true]
      left
      simpa [List.cons_append] using leadsList_append (c :: cs) b
  | cons x xs ih =>
    simp only [List.cons_append, containsSeq, Bool.or_eq_true]
    right
    simpa using ih

/-- A string built as `a ++ n ++ b` contains `n`. -/
theorem containsStr_of_append (a n b : String) :
    containsStr (a ++ n ++ b) n = true := by
  unfold containsStr
  rw [String.data_append, String.data_append]
  exact containsSeq_append_middle a.data n.data b.data

/-! ## JSON serialization of the metadata mapping

`_save_transcription` stores `json.dumps(result.get("metadata", {}))`;
`get_transcription_history` reads it back with `json.loads`.  We model the
`dumps`/`loads` pair on string-keyed, string-valued objects: `dumps` with
its default separators (", " between items and ": " after a key) and string
escaping (quote, backslash, and control characters; control characters are
uniformly rendered in u-escape form, which `loads` accepts), and `loads` as
a parser of exactly the documents `dumps` emits. -/

/-- Hex digit character for a value below 16 (lowercase, as Python prints). -/
def hexDigit (k : Nat) : Char :=
  if k < 10 then Char.ofNat (48 + k) else Char.ofNat (87 + k)

/-- Numeric value of a hex digit character, if it is one. -/
def hexVal (c : Char) : Option Nat :=
  if 48 ≤ c.toNat ∧ c.toNat ≤ 57 then some (c.toNat - 48)
  else if 97 ≤ c.toNat ∧ c.toNat ≤ 102 then some (c.toNat - 87)
  else if 65 ≤ c.toNat ∧ c.toNat ≤ 70 then some (c.toNat - 55)
  else none

/-- JSON escape of one character inside a string literal. -/
def escChar (c : Char) : List Char :=
  if c = '"' then ['\\', '"']
  else if c = '\\' then ['\\', '\\']
  else if c.toNat < 32 then
    ['\\', 'u', '0', '0', hexDigit (c.toNat / 16), hexDigit (c.toNat % 16)]
  else [c]

/-- JSON escape of a character sequence. -/
def escList (s : List Char) : List Char := s.flatMap escChar

/-- JSON string literal (with its double quotes) for `s`, as a char list. -/
def jsonStrL (s : String) : List Char := '"' :: (escList s.data ++ ['"'])

/-- JSON string literal for `s`, as a string. -/
def jsonStr (s : String) : String := String.mk (jsonStrL s)

/-- One `"key": "value"` item of a JSON object, `dumps` style. -/
def pairL (kv : String × String) : List Char :=
  jsonStrL kv.1 ++ ':' :: ' ' :: jsonStrL kv.2

/-- The comma-separated items of a JSON object, `dumps` style. -/
def itemsL : List (String × String) → List Char
  | [] => []
  | [kv] => pairL kv
  | kv :: rest => pairL kv ++ ',' :: ' ' :: itemsL rest

/-- Models `json.dumps(m)` for a string-keyed, string-valued mapping `m`. -/
def jsonDumpsObj (m : List (String × String)) : String :=
  match m with
  | [] => "{}"
  | _ => String.mk ('{' :: (itemsL m ++ ['}']))

/-- String-literal body parser: consumes characters (unescaping as it goes)
up to and including the closing quote; returns the decoded characters and
the rest of the input.  Fails on a malformed escape or a missing quote. -/
def parseStrAux : List Char → List Char → Option (List Char × List Char)
  | _, [] => none
  | acc, c :: rest =>
    if c = '"' then some (acc.reverse, rest)
    else if c = '\\' then
      match rest with
      | '"' :: r => parseStrAux ('"' :: acc) r
      | '\\' :: r => parseStrAux ('\\' :: acc) r
      | 'u' :: h1 :: h2 :: h3 :: h4 :: r =>
        match hexVal h1, hexVal h2, hexVal h3, hexVal h4 with
        | some a, some b, some cc, some d =>
          parseStrAux (Char.ofNat (((a * 16 + b) * 16 + cc) * 16 + d) :: acc) r
        | _, _, _, _ => none
      | _ => none
    else parseStrAux (c :: acc) rest

/-- Object-item parser: positioned at the opening quote of a key, reads
`"key": "value"` items separated by ", " up to the closing brace.  `fuel`
bounds the number of items (one unit per item). -/
def parseItems : Nat → List Char → Option (List (String × String))
  | 0, _ => none
  | fuel + 1, l =>
    match l with
    | '"' :: rest =>
      match parseStrAux [] rest with
      | some (k, ':' :: ' ' :: '"' :: rest2) =>
        match parseStrAux [] rest2 with
        | some (v, rest3) =>
          match rest3 with
          | ',' :: ' ' :: rest4 =>
            (parseItems fuel rest4).map (fun tl => (String.mk k, String.mk v) :: tl)
          | ['}'] => some [(String.mk k, String.mk v)]
          | _ => none
        | none => none
      | _ => none
    | _ => none

/-- Models `json.loads(s)` restricted to the object documents `dumps`
emits: an empty object or a brace-wrapped item list. -/
def jsonLoadsObj (s : String) : Option (List (String × String)) :=
  match s.data with
  | ['{', '}'] => some []
  | '{' :: rest => parseItems rest.length rest
  | _ => none

theorem hexVal_hexDigit : ∀ k, k < 16 → hexVal (hexDigit k) = some k := by decide

theorem parseStrAux_quote (acc rest) :
    parseStrAux acc ('"' :: rest) = some (acc.reverse, rest) := by
  rw [parseStrAux.eq_def]; simp

theorem parseStrAux_escQuote (acc rest) :
    parseStrAux acc ('\\' :: '"' :: rest) = parseStrAux ('"' :: acc) rest := by
  rw [parseStrAux.eq_def]; simp

theorem parseStrAux_escBack (acc rest) :
    parseStrAux acc ('\\' :: '\\' :: rest) = parseStrAux ('\\' :: acc) rest := by
  rw [parseStrAux.eq_def]; simp

theorem parseStrAux_escU (acc h1 h2 h3 h4 rest) :
    parseStrAux acc ('\\' :: 'u' :: h1 :: h2 :: h3 :: h4 :: rest) =
      match hexVal h1, hexVal h2, hexVal h3, hexVal h4 with
      | some a, some b, some cc, some d =>
        parseStrAux (Char.ofNat (((a * 16 + b) * 16 + cc) * 16 + d) :: acc) rest
      | _, _, _, _ => none := by
  rw [parseStrAux.eq_def]; simp

theorem parseStrAux_other (acc : List Char) (c : Char) (rest : List Char)
    (hq : c ≠ '"') (hb : c ≠ '\\') :
    parseStrAux acc (c :: rest) = parseStrAux (c :: acc) rest := by
  rw [parseStrAux.eq_def]; simp [hq, hb]

/-- The string-body parser undoes the escaper: reading `escList s` followed
by a closing quote yields `s` (appended to the accumulator) and the rest. -/
theorem parseStrAux_escList (s : List Char) :
    ∀ acc rest, parseStrAux acc (escList s ++ '"' :: rest) =
      some (acc.reverse ++ s, rest) := by
  induction s with
  | nil =>
    intro acc rest
    simp only [escList, List.flatMap_nil, List.nil_append]
    rw [parseStrAux_quote]
    simp
  | cons c cs ih =>
    intro acc rest
    have hunf : escList (c :: cs) = escChar c ++ escList cs := by
      simp [escList]
    rw [hunf]
    by_cases hq : c = '"'
    · subst hq
      have he : escChar '"' = ['\\', '"'] := by decide
      rw [he]
      simp only [List.cons_append, List.nil_append, List.append_assoc]
      rw [parseStrAux_escQuote, ih]
      simp
    · by_cases hb : c = '\\'
      · subst hb
        have he : escChar '\\' = ['\\', '\\'] := by decide
        rw [he]
        simp only [List.cons_append, List.nil_append, List.append_assoc]
        rw [parseStrAux_escBack, ih]
        simp
      · by_cases hc : c.toNat < 32
        · simp only [escChar, if_neg hq, if_neg hb, if_pos hc, List.cons_append,
            List.nil_append, List.append_assoc]
          rw [parseStrAux_escU]
          have h1 : c.toNat / 16 < 16 := by omega
          have h2 : c.toNat % 16 < 16 := Nat.mod_lt _ (by omega)
          rw [hexVal_hexDigit _ h1, hexVal_hexDigit _ h2]
          have hv0 : hexVal '0' = some 0 := by decide
          rw [hv0]
          simp only []
          have harith : ((0 * 16 + 0) * 16 + c.toNat / 16) * 16 + c.toNat % 16
              = c.toNat := by omega
          rw [harith, Char.ofNat_toNat, ih]
          simp
        · simp only [escChar, if_neg hq, if_neg hb, if_neg hc, List.cons_append,
            List.nil_append]
          rw [parseStrAux_other acc c _ hq hb, ih]
          simp

theorem pairL_shape (kv : String × String) (tail : List Char) :
    pairL kv ++ tail =
      '"' :: (escList kv.1.data ++ '"' ::
        (':' :: ' ' :: '"' :: (escList kv.2.data ++ '"' :: tail))) := by
  simp [pairL, jsonStrL, List.append_assoc]

theorem parseItems_itemsL :
    ∀ (m : List (String × String)), m ≠ [] →
      ∀ fuel, m.length ≤ fuel → parseItems fuel (itemsL m ++ ['}']) = some m := by
  intro m
  induction m with
  | nil => intro h; exact absurd rfl h
  | cons kv m' ih =>
    intro _ fuel hfuel
    match fuel, hfuel with
    | f + 1, hfuel =>
      cases hm' : m' with
      | nil =>
        have hshape : itemsL [kv] ++ ['}'] = pairL kv ++ ['}'] := by
          simp [itemsL]
        subst hm'
        rw [hshape, pairL_shape]
        simp only [parseItems]
        rw [parseStrAux_escList]
        simp only [List.reverse_nil, List.nil_append]
        rw [parseStrAux_escList]
        simp
      | cons kv2 m'' =>
        have hne : m' ≠ [] := by rw [hm']; simp
        have hlen : m'.length ≤ f := by
          have := List.length_cons kv m' ▸ hfuel
          omega
        rw [← hm']
        have hshape : itemsL (kv :: m') ++ ['}'] =
            pairL kv ++ (',' :: ' ' :: (itemsL m' ++ ['}'])) := by
          rw [hm']
          simp [itemsL, List.append_assoc]
        rw [hshape, pairL_shape]
        simp only [parseItems]
        rw [parseStrAux_escList]
        simp only [List.reverse_nil, List.nil_append]
        rw [parseStrAux_escList]
        simp only [List.reverse_nil, List.nil_append]
        rw [ih hne f hlen]
        simp

/-- `json.loads` undoes `json.dumps` on the metadata mapping. -/
theorem jsonLoadsObj_jsonDumpsObj (m : List (String × String)) :
    jsonLoadsObj (jsonDumpsObj m) = some m := by
  cases m with
  | nil => rfl
  | cons kv m' =>
    have hdata : (jsonDumpsObj (kv :: m')).data = '{' :: (itemsL (kv :: m') ++ ['}']) := by
      simp [jsonDumpsObj]
    have hhead : ∃ t, itemsL (kv :: m') = '"' :: t := by
      cases m' with
      | nil => exact ⟨_, by rw [show itemsL [kv] = pairL kv ++ [] by simp [itemsL], pairL_shape]⟩
      | cons kv2 m'' =>
        exact ⟨_, by
          rw [show itemsL (kv :: kv2 :: m'')
            = pairL kv ++ (',' :: ' ' :: itemsL (kv2 :: m'')) from rfl, pairL_shape]⟩
    obtain ⟨t, ht⟩ := hhead
    rw [jsonLoadsObj, hdata, ht]
    simp only [List.cons_append]
    have hfuel : (kv :: m').length ≤ ('"' :: (t ++ ['}'])).length := by
      have : itemsL (kv :: m') ++ ['}'] = '"' :: (t ++ ['}']) := by
        rw [ht]; simp
      have hlen : ∀ (l : List (String × String)), l ≠ [] →
          l.length ≤ (itemsL l ++ ['}']).length := by
        intro l
        induction l with
        | nil => intro h; exact absurd rfl h
        | cons a l' ihl =>
          intro _
          cases l' with
          | nil => simp [itemsL, pairL, jsonStrL]
          | cons b l'' =>
            have := ihl (by simp)
            rw [show itemsL (a :: b :: l'') = pairL a ++ (',' :: ' ' :: itemsL (b :: l'')) from rfl]
            have hp : 1 ≤ (pairL a).length := by
              simp only [pairL, jsonStrL, List.cons_append, List.length_cons,
                List.length_append]
              omega
            simp only [List.append_assoc, List.cons_append, List.length_append,
              List.length_cons] at this ⊢
            omega
      have h2 := hlen (kv :: m') (by simp)
      rw [this] at h2
      exact h2
    have := parseItems_itemsL (kv :: m') (by simp) (('"' :: (t ++ ['}'])).length) (by
      exact hfuel)
    rw [ht] at this
    simp only [List.cons_append] at this
    exact this

/-! ## Data model

`Row` is one row of the `transcriptions` table (src/0099.py, `_init_database`):
id INTEGER PRIMARY KEY AUTOINCREMENT, timestamp DATETIME DEFAULT
CURRENT_TIMESTAMP, text TEXT NOT NULL, language TEXT, engine TEXT,
audio_file_path TEXT, confidence REAL, duration REAL, metadata TEXT.
The database itself is the list of rows in insertion order; AUTOINCREMENT
ids are modelled as `length + 1` (the table is append-only: the source has
no UPDATE or DELETE statement). -/

structure Row where
  id : Nat
  timestamp : Nat
  text : String
  language : Option String
  engine : Option String
  audio_file_path : Option String
  confidence : String
  duration : Option String
  metadata : String
  deriving Repr, DecidableEq

/-- A recognition-result dict as the engine methods and `_process_audio`
build it: each field models the presence/absence of the dict key of the
same name.  Successful results carry `text`, `confidence`, `engine`; error
results carry `error`; `transcribe_file` adds `audio_file_path` to
whatever it got back. -/
structure PyDict where
  text : Option String := none
  confidence : Option String := none
  engine : Option String := none
  error : Option String := none
  audio_file_path : Option String := none
  metadata : Option (List (String × String)) := none
  deriving Repr, DecidableEq

/-- The configuration fields the engine methods read (`_recognize_azure`,
`_recognize_openai`, `_recognize_whisper`); empty string = "not
configured", as in the source's truthiness tests. -/
structure Config where
  azure_key : String := ""
  azure_region : String := ""
  openai_api_key : String := ""
  whisper_model : String := "base"
  deriving Repr, DecidableEq

/-! ## Engine back ends

Each engine's external effects (the Google API call, the Whisper model,
the microphone) are abstracted into an outcome value chosen by the
environment; the engine function maps the outcome to the dict the source
builds in the corresponding branch. -/

/-- Outcome of the `recognizer.recognize_google` call in
`_recognize_google`: recognized text, `sr.UnknownValueError`, or
`sr.RequestError`. -/
inductive GoogleOutcome where
  | success (text : String)
  | unknownValue
  | requestError (msg : String)
  deriving Repr, DecidableEq

/-- Outcome of the body of `_recognize_whisper`'s `try`: the transcribed
text, or an exception raised by `audio.export`, `whisper.load_model` or
`model.transcribe` (`str(e)` of the exception is carried). -/
inductive WhisperOutcome where
  | success (text : String)
  | exportFails (msg : String)
  | loadFails (msg : String)
  | transcribeFails (msg : String)
  deriving Repr, DecidableEq

/-- The nondeterministic environment of one recognition call: what each
fallible external step would do if reached. -/
structure Outcomes where
  google : GoogleOutcome
  whisper : WhisperOutcome
  deriving Repr, DecidableEq

/-- Models `_recognize_google` (src/0099.py lines 180-192). -/
def recognize_google (o : GoogleOutcome) : PyDict :=
  match o with
  | .success t => { text := some t, confidence := some "0.8", engine := some "google" }
  | .unknownValue => { error := some "Could not understand audio" }
  | .requestError e => { error := some ("Google API error: " ++ e) }

/-- Models the dict `_recognize_whisper` returns (src/0099.py lines
194-213): the temporary-file side effect is `whisper_tmpfile_left`
below. -/
def recognize_whisper (o : WhisperOutcome) : PyDict :=
  match o with
  | .success t => { text := some t, confidence := some "0.9", engine := some "whisper" }
  | .exportFails e => { error := some ("Whisper error: " ++ e) }
  | .loadFails e => { error := some ("Whisper error: " ++ e) }
  | .transcribeFails e => { error := some ("Whisper error: " ++ e) }

/-- Whether the temporary file `_recognize_whisper` creates still exists
when the call returns.  The source opens `NamedTemporaryFile(delete=False)`
and calls `os.unlink(tmp_file.name)` only after `model.transcribe`
succeeds, inside the `try`; any exception jumps to the `except` handler
without unlinking, so the file survives every failing outcome. -/
def whisper_tmpfile_left (o : WhisperOutcome) : Bool :=
  match o with
  | .success _ => false
  | .exportFails _ => true
  | .loadFails _ => true
  | .transcribeFails _ => true

/-- Models `_recognize_azure` (src/0099.py lines 215-225). -/
def recognize_azure (cfg : Config) : PyDict :=
  if cfg.azure_key = "" ∨ cfg.azure_region = "" then
    { error := some "Azure credentials not configured" }
  else
    { error := some "Azure recognition not fully implemented" }

/-- Models `_recognize_openai` (src/0099.py lines 227-236). -/
def recognize_openai (cfg : Config) : PyDict :=
  if cfg.openai_api_key = "" then
    { error := some "OpenAI API key not configured" }
  else
    { error := some "OpenAI recognition not fully implemented" }

/-- The engine dispatch table of `_init_engines` (src/0099.py lines
119-126): `self.engines[name](audio, language)` for a known name, `none`
for any other.  Audio and language reach only the external SDKs, which
are abstracted into `Outcomes`. -/
def engine_lookup (cfg : Config) (o : Outcomes) (engine : String) : Option PyDict :=
  if engine = "google" then some (recognize_google o.google)
  else if engine = "whisper" then some (recognize_whisper o.whisper)
  else if engine = "azure" then some (recognize_azure cfg)
  else if engine = "openai" then some (recognize_openai cfg)
  else none

/-! ## Persistence -/

/-- Models `_save_transcription` (src/0099.py lines 255-272): a single
INSERT of (text, language, engine, confidence, metadata); id is assigned
by AUTOINCREMENT, timestamp by DEFAULT CURRENT_TIMESTAMP (the clock value
`ts` is an input here), and the audio_file_path and duration columns are
not named by the INSERT, so they are NULL. -/
def save_transcription (db : List Row) (result : PyDict)
    (language engine : String) (ts : Nat) : List Row :=
  db ++ [{
    id := db.length + 1,
    timestamp := ts,
    text := result.text.getD "",
    language := some language,
    engine := some engine,
    audio_file_path := none,
    confidence := result.confidence.getD "0.0",
    duration := none,
    metadata := jsonDumpsObj (result.metadata.getD []) }]

/-- Stable insertion (descending timestamp) used to model the query
`ORDER BY timestamp DESC`: a row is placed after every already-placed row
whose timestamp is not smaller, so rows with equal timestamps keep their
scan (insertion) order, which is how SQLite's sorter behaves on a full
table scan with no index. -/
def insertDesc (r : Row) : List Row → List Row
  | [] => [r]
  | x :: xs => if r.timestamp ≤ x.timestamp then x :: insertDesc r xs else r :: x :: xs

/-- The rows `ORDER BY timestamp DESC` yields, most recent timestamp
first. -/
def sortDesc (db : List Row) : List Row :=
  db.foldl (fun acc r => insertDesc r acc) []

/-- One entry of the list `get_transcription_history` returns: the source
selects id, timestamp, text, language, engine, confidence, metadata (not
audio_file_path, not duration) and parses the metadata column with
`json.loads(row[6]) if row[6] else {}`. -/
structure HistItem where
  id : Nat
  timestamp : Nat
  text : String
  language : Option String
  engine : Option String
  confidence : String
  metadata : List (String × String)
  deriving Repr, DecidableEq

/-- The dict built for one fetched row.  A saved metadata column always
parses (it is `json.dumps` output); an unparsable column would raise in
the source and is mapped to the empty dict here, a case no reachable row
produces. -/
def rowToItem (r : Row) : HistItem :=
  { id := r.id, timestamp := r.timestamp, text := r.text,
    language := r.language, engine := r.engine, confidence := r.confidence,
    metadata := if r.metadata = "" then [] else (jsonLoadsObj r.metadata).getD [] }

/-- Models `get_transcription_history` (src/0099.py lines 274-299):
SELECT ... ORDER BY timestamp DESC LIMIT `limit`, each row turned into a
dict. -/
def get_transcription_history (db : List Row) (limit : Nat) : List HistItem :=
  ((sortDesc db).take limit).map rowToItem

/-! ## Audio processing and the entry points -/

/-- Models `_process_audio` (src/0099.py lines 162-178): unknown engine
name short-circuits to an error dict; otherwise the engine runs and the
result is saved exactly when the dict has a non-empty "text" value. -/
def process_audio (cfg : Config) (o : Outcomes) (db : List Row)
    (language engine : String) (ts : Nat) : PyDict × List Row :=
  match engine_lookup cfg o engine with
  | none => ({ error := some ("Unsupported engine: " ++ engine) }, db)
  | some result =>
    match result.text with
    | some t =>
      if t ≠ "" then (result, save_transcription db result language engine ts)
      else (result, db)
    | none => (result, db)

/-- Outcome of the microphone capture in `transcribe_microphone`. -/
inductive MicOutcome where
  | captured
  | waitTimeout
  | otherError (msg : String)
  deriving Repr, DecidableEq

/-- Models `transcribe_microphone` (src/0099.py lines 128-142). -/
def transcribe_microphone (cfg : Config) (o : Outcomes) (db : List Row)
    (language engine : String) (ts : Nat) (mic : MicOutcome) : PyDict × List Row :=
  match mic with
  | .captured => process_audio cfg o db language engine ts
  | .waitTimeout => ({ error := some "No speech detected within timeout period" }, db)
  | .otherError m => ({ error := some m }, db)

/-- Outcome of the file open/record steps in `transcribe_file`
(`_convert_audio_file` never raises: it falls back to the original
path). -/
inductive FileOutcome where
  | recorded
  | recordFails (msg : String)
  deriving Repr, DecidableEq

/-- Models `transcribe_file` (src/0099.py lines 144-160): on success it
runs `_process_audio` and then sets `result["audio_file_path"] =
file_path` on the returned dict (the dict only — the row was already
inserted without it). -/
def transcribe_file (cfg : Config) (o : Outcomes) (db : List Row)
    (file_path language engine : String) (ts : Nat) (fo : FileOutcome) :
    PyDict × List Row :=
  match fo with
  | .recordFails m => ({ error := some m }, db)
  | .recorded =>
    let pr := process_audio cfg o db language engine ts
    ({ pr.1 with audio_file_path := some file_path }, pr.2)

/-! ## Configuration loader -/

/-- A value of the JSON configuration document: a string, a number, or a
nested one-level object (all `_load_config` needs). -/
inductive CVal where
  | str (s : String)
  | num (n : Nat)
  | obj (fields : List (String × CVal))

/-- A configuration document: a string-keyed JSON object, as an
association list in key order. -/
abbrev CDoc := List (String × CVal)

/-- The `default_config` dict of `_load_config` (src/0099.py lines
56-81). -/
def default_config : CDoc :=
  [("google_api_key", .str ""),
   ("azure_key", .str ""),
   ("azure_region", .str ""),
   ("openai_api_key", .str ""),
   ("whisper_model", .str "base"),
   ("default_language", .str "en-US"),
   ("supported_languages", .obj
     [("en-US", .str "English (US)"),
      ("en-GB", .str "English (UK)"),
      ("es-ES", .str "Spanish"),
      ("fr-FR", .str "French"),
      ("de-DE", .str "German"),
      ("it-IT", .str "Italian"),
      ("pt-BR", .str "Portuguese (Brazil)"),
      ("ru-RU", .str "Russian"),
      ("ja-JP", .str "Japanese"),
      ("ko-KR", .str "Korean"),
      ("zh-CN", .str "Chinese (Simplified)")]),
   ("audio_settings", .obj
     [("sample_rate", .num 16000),
      ("channels", .num 1),
      ("format", .str "wav")])]

/-- Whether the dict has key `k` (Python's `key not in config` test,
negated). -/
def containsKey (k : String) (d : CDoc) : Bool :=
  d.any (fun kv => kv.1 = k)

/-- First-match association lookup (a Python dict read). -/
def lookupKey (k : String) : CDoc → Option CVal
  | [] => none
  | kv :: rest => if kv.1 = k then some kv.2 else lookupKey k rest

/-- The merge loop of `_load_config`: for each top-level default key
missing from the parsed document, append it (Python dict insertion adds
at the end).  One level only: nothing recurses into nested objects. -/
def mergeDefaults (doc : CDoc) : CDoc :=
  default_config.foldl
    (fun cfg kv => if containsKey kv.1 cfg then cfg else cfg ++ [kv]) doc

/-- The possible states of the configuration file as `_load_config` can
observe them: absent (`os.path.exists` false), present but unreadable or
unparsable (`open`/`json.load` raises), or parsed to a document. -/
inductive ConfigFile where
  | missing
  | unreadable
  | parsed (doc : CDoc)

/-- Models `_load_config` (src/0099.py lines 54-95): a missing file and a
read/parse failure both fall through to `return default_config` (the
failure is only logged); a parsed document is shallowly merged with the
defaults.  Total: no path raises to the caller. -/
def load_config : ConfigFile → CDoc
  | .missing => default_config
  | .unreadable => default_config
  | .parsed doc => mergeDefaults doc

/-! ## Export formatter

Models `export_transcriptions` (src/0099.py lines 301-313).  The three
renderings model the library calls the source makes: `json.dumps(history,
indent=2, default=str)`, `pandas.DataFrame(history).to_csv(index=False)`,
and the f-string join for txt. -/

/-- Decimal rendering of the modelled timestamp (stands for the
"YYYY-MM-DD HH:MM:SS" string SQLite returns; digits need no JSON or CSV
escaping, as that string does not either). -/
def tsRender (ts : Nat) : String := toString ts

/-- Python `str.join` on a list of rendered pieces. -/
def joinSep (sep : String) : List String → String
  | [] => ""
  | [s] => s
  | s :: rest => s ++ sep ++ joinSep sep rest

/-- The escaped body of a JSON string literal. -/
def escStr (s : String) : String := String.mk (escList s.data)

/-- JSON rendering of a nullable string column. -/
def jsonOpt : Option String → String
  | none => "null"
  | some s => jsonStr s

/-- JSON rendering of the metadata mapping at nesting depth 2 of
`json.dumps(..., indent=2)`. -/
def jsonMetaIndented (m : List (String × String)) : String :=
  match m with
  | [] => "{}"
  | _ => "\x7b\n" ++
      joinSep ",\n" (m.map (fun kv => "      " ++ jsonStr kv.1 ++ ": " ++ jsonStr kv.2)) ++
      "\n    \x7d"

/-- One history dict as `json.dumps(..., indent=2)` renders it (keys in
dict insertion order, matching `get_transcription_history`). -/
def jsonItem (i : HistItem) : String :=
  "  \x7b\n    \"id\": " ++ toString i.id ++
  ",\n    \"timestamp\": " ++ ("\"" ++ tsRender i.timestamp ++ "\"") ++
  ",\n    \"text\": " ++ jsonStr i.text ++
  ",\n    \"language\": " ++ jsonOpt i.language ++
  ",\n    \"engine\": " ++ jsonOpt i.engine ++
  ",\n    \"confidence\": " ++ i.confidence ++
  ",\n    \"metadata\": " ++ jsonMetaIndented i.metadata ++
  "\n  \x7d"

/-- Models `json.dumps(history, indent=2, default=str)`. -/
def renderJson (items : List HistItem) : String :=
  match items with
  | [] => "[]"
  | _ => "[\n" ++ joinSep ",\n" (items.map jsonItem) ++ "\n]"

/-- Whether a CSV field must be quoted (pandas QUOTE_MINIMAL). -/
def csvNeedsQuote (s : String) : Bool :=
  s.data.any (fun c => c = ',' ∨ c = '"' ∨ c = '\n' ∨ c = '\r')

/-- A CSV field, quoted with doubled inner quotes when needed. -/
def csvField (s : String) : String :=
  if csvNeedsQuote s then
    "\"" ++ String.mk (s.data.flatMap (fun c => if c = '"' then ['"', '"'] else [c])) ++ "\""
  else s

/-- CSV rendering of a nullable string column (NaN prints as empty). -/
def csvOpt : Option String → String
  | none => ""
  | some s => csvField s

/-- Python `str()` of the parsed metadata dict, as pandas stringifies the
object column (repr with single quotes). -/
def pyReprMeta (m : List (String × String)) : String :=
  match m with
  | [] => "{}"
  | _ => "\x7b" ++ joinSep ", " (m.map (fun kv => "'" ++ kv.1 ++ "': '" ++ kv.2 ++ "'")) ++ "\x7d"

/-- One data line of the CSV export. -/
def csvRow (i : HistItem) : String :=
  toString i.id ++ "," ++ csvField (tsRender i.timestamp) ++ "," ++
  csvField i.text ++ "," ++ csvOpt i.language ++ "," ++ csvOpt i.engine ++ "," ++
  i.confidence ++ "," ++ csvField (pyReprMeta i.metadata) ++ "\n"

/-- Models `pandas.DataFrame(history).to_csv(index=False)`: a header row
of the dict keys, then one line per record (an empty history has no
columns, so only a newline is produced). -/
def renderCsv (items : List HistItem) : String :=
  match items with
  | [] => "\n"
  | _ => "id,timestamp,text,language,engine,confidence,metadata\n" ++
      joinSep "" (items.map csvRow)

/-- One line of the txt export: `f"{item['timestamp']}: {item['text']}"`
(no other field is rendered). -/
def txtLine (i : HistItem) : String := tsRender i.timestamp ++ ": " ++ i.text

/-- Models the txt branch: `"\n".join(...)`. -/
def renderTxt (items : List HistItem) : String :=
  joinSep "\n" (items.map txtLine)

/-- Models `export_transcriptions` (src/0099.py lines 301-313): the
history (with the default limit 100) rendered in the requested format;
any other format value raises `ValueError(f"Unsupported format:
{format}")`, modelled as `Except.error`. -/
def export_transcriptions (db : List Row) (format : String) : Except String String :=
  let history := get_transcription_history db 100
  if format = "json" then .ok (renderJson history)
  else if format = "csv" then .ok (renderCsv history)
  else if format = "txt" then .ok (renderTxt history)
  else .error ("Unsupported format: " ++ format)

/-! ## Lemmas about the history query's ordering -/

theorem mem_insertDesc (r y : Row) (l : List Row) :
    y ∈ insertDesc r l ↔ y = r ∨ y ∈ l := by
  induction l with
  | nil => simp [insertDesc]
  | cons x xs ih =>
    simp only [insertDesc]
    split
    · simp [ih]
      tauto
    · simp

theorem insertDesc_top (r : Row) (l : List Row)
    (h : ∀ x ∈ l, x.timestamp < r.timestamp) : insertDesc r l = r :: l := by
  cases l with
  | nil => rfl
  | cons x xs =>
    have hx := h x (by simp)
    simp only [insertDesc]
    rw [if_neg (by omega)]

theorem mem_foldl_insertDesc (l : List Row) :
    ∀ (acc : List Row) (y : Row),
      y ∈ l.foldl (fun acc r => insertDesc r acc) acc ↔ y ∈ acc ∨ y ∈ l := by
  induction l with
  | nil => simp
  | cons x xs ih =>
    intro acc y
    simp only [List.foldl_cons]
    rw [ih]
    rw [mem_insertDesc]
    simp
    tauto

theorem mem_sortDesc (db : List Row) (y : Row) : y ∈ sortDesc db ↔ y ∈ db := by
  unfold sortDesc
  rw [mem_foldl_insertDesc]
  simp

theorem sortDesc_append_one (db : List Row) (r : Row)
    (h : ∀ x ∈ db, x.timestamp < r.timestamp) :
    sortDesc (db ++ [r]) = r :: sortDesc db := by
  unfold sortDesc
  rw [List.foldl_append]
  simp only [List.foldl_cons, List.foldl_nil]
  exact insertDesc_top r _ (fun x hx => h x ((mem_sortDesc db x).mp hx))

theorem sortDesc_of_strict (db : List Row)
    (h : db.Pairwise (fun a b => a.timestamp < b.timestamp)) :
    sortDesc db = db.reverse := by
  induction db using List.reverseRecOn with
  | nil => rfl
  | append_singleton xs r ih =>
    have hsplit := List.pairwise_append.mp h
    rw [sortDesc_append_one xs r (fun x hx => hsplit.2.2 x hx r (by simp))]
    rw [ih hsplit.1]
    simp

/-- The comparison the query sorts by, on rows: descending timestamp. -/
def DescBy (a b : Row) : Prop := b.timestamp ≤ a.timestamp

theorem sorted_insertDesc (r : Row) (l : List Row)
    (h : l.Pairwise DescBy) : (insertDesc r l).Pairwise DescBy := by
  induction l with
  | nil => simp [insertDesc]
  | cons x xs ih =>
    rw [List.pairwise_cons] at h
    simp only [insertDesc]
    split
    · rename_i hle
      rw [List.pairwise_cons]
      constructor
      · intro y hy
        rcases (mem_insertDesc r y xs).mp hy with rfl | hmem
        · exact hle
        · exact h.1 y hmem
      · exact ih h.2
    · rename_i hgt
      rw [List.pairwise_cons]
      constructor
      · intro y hy
        rcases hy with _ | hmem
        · unfold DescBy; omega
        · rename_i hmem
          have := h.1 y hmem
          unfold DescBy at *
          omega
      · exact List.pairwise_cons.mpr h

theorem sorted_sortDesc (db : List Row) : (sortDesc db).Pairwise DescBy := by
  unfold sortDesc
  suffices h : ∀ acc : List Row, acc.Pairwise DescBy →
      (db.foldl (fun acc r => insertDesc r acc) acc).Pairwise DescBy by
    exact h [] (by simp)
  induction db with
  | nil => intro acc hacc; simpa using hacc
  | cons x xs ih =>
    intro acc hacc
    simp only [List.foldl_cons]
    exact ih _ (sorted_insertDesc x acc hacc)

/-! ## Substring occurrence -/

/-- The string `n` occurs contiguously inside `hay`. -/
def SubStr (n hay : String) : Prop := ∃ p q, hay = p ++ (n ++ q)

theorem SubStr.refl (a : String) : SubStr a a :=
  ⟨"", "", by simp⟩

theorem SubStr.appL {n a : String} (h : SubStr n a) (b : String) :
    SubStr n (a ++ b) := by
  obtain ⟨p, q, rfl⟩ := h
  exact ⟨p, q ++ b, by simp [String.append_assoc]⟩

theorem SubStr.appR {n b : String} (a : String) (h : SubStr n b) :
    SubStr n (a ++ b) := by
  obtain ⟨p, q, rfl⟩ := h
  exact ⟨a ++ p, q, by simp [String.append_assoc]⟩

/-- A substring occurrence makes the boolean scanner answer true. -/
theorem containsStr_of_SubStr {n hay : String} (h : SubStr n hay) :
    containsStr hay n = true := by
  obtain ⟨p, q, rfl⟩ := h
  have := containsStr_of_append p n q
  simpa [String.append_assoc] using this

theorem SubStr_joinSep (sep : String) (l : List String) (x : String)
    (h : x ∈ l) : SubStr x (joinSep sep l) := by
  induction l with
  | nil => simp at h
  | cons s rest ih =>
    cases rest with
    | nil =>
      simp at h
      subst h
      exact SubStr.refl x
    | cons s2 rest2 =>
      rcases List.mem_cons.mp h with rfl | hmem
      · exact (SubStr.refl x).appL sep |>.appL (joinSep sep (s2 :: rest2))
      · exact SubStr.appR (s ++ sep) (ih hmem)

/-! ## Lemmas about the configuration merge -/

theorem containsKey_append (k : String) (a b : CDoc) :
    containsKey k (a ++ b) = (containsKey k a || containsKey k b) := by
  simp [containsKey, List.any_append]

theorem lookupKey_append_left {k : String} {a : CDoc} (b : CDoc)
    (h : containsKey k a = true) : lookupKey k (a ++ b) = lookupKey k a := by
  induction a with
  | nil => simp [containsKey] at h
  | cons kv rest ih =>
    by_cases hk : kv.1 = k
    · simp [lookupKey, hk]
    · simp only [containsKey, List.any_cons, Bool.or_eq_true, decide_eq_true_eq] at h
      rcases h with h | h
      · exact absurd h hk
      · simp only [List.cons_append, lookupKey, if_neg hk]
        exact ih h

theorem lookupKey_append_right {k : String} {a : CDoc} (b : CDoc)
    (h : containsKey k a = false) : lookupKey k (a ++ b) = lookupKey k b := by
  induction a with
  | nil => simp
  | cons kv rest ih =>
    simp only [containsKey, List.any_cons, Bool.or_eq_false_iff,
      decide_eq_false_iff_not] at h
    simp only [List.cons_append, lookupKey, if_neg h.1]
    exact ih (by simpa [containsKey] using h.2)

theorem lookupKey_filter_not_mem {k : String} {doc : CDoc} (l : CDoc)
    (h : containsKey k doc = false) :
    lookupKey k (l.filter (fun kv => !containsKey kv.1 doc)) = lookupKey k l := by
  induction l with
  | nil => rfl
  | cons kv rest ih =>
    by_cases hk : kv.1 = k
    · have hkeep : (!containsKey kv.1 doc) = true := by rw [hk, h]; rfl
      simp only [List.filter_cons, hkeep, if_true]
      simp [lookupKey, hk]
    · by_cases hkeep : (!containsKey kv.1 doc) = true
      · simp only [List.filter_cons, hkeep, if_true]
        simp only [lookupKey, if_neg hk]
        exact ih
      · simp only [List.filter_cons, if_neg hkeep]
        simp only [lookupKey, if_neg hk]
        exact ih

/-- The merge loop appends exactly the default entries whose keys the
parsed document lacks, in order. -/
theorem mergeDefaults_eq (doc : CDoc) :
    mergeDefaults doc = doc ++ default_config.filter (fun kv => !containsKey kv.1 doc) := by
  unfold mergeDefaults
  suffices h : ∀ (ds : CDoc), ds.Pairwise (fun kv kv' => kv.1 ≠ kv'.1) →
      ∀ (acc : CDoc), (∀ kv ∈ ds, containsKey kv.1 acc = containsKey kv.1 doc) →
      ds.foldl (fun cfg kv => if containsKey kv.1 cfg then cfg else cfg ++ [kv]) acc
        = acc ++ ds.filter (fun kv => !containsKey kv.1 doc) by
    refine h default_config ?_ doc (fun kv _ => rfl)
    decide
  intro ds
  induction ds with
  | nil => intro _ acc _; simp
  | cons kv rest ih =>
    intro hnd acc hacc
    rw [List.pairwise_cons] at hnd
    simp only [List.foldl_cons]
    have hkv := hacc kv (by simp)
    by_cases hmem : containsKey kv.1 doc = true
    · rw [if_pos (hkv.trans hmem)]
      simp only [List.filter_cons, hmem, Bool.not_true, if_neg (by decide : ¬(false = true))]
      exact ih hnd.2 acc (fun kv' h' => hacc kv' (by simp [h']))
    · have hfalse : containsKey kv.1 doc = false := by
        simpa using hmem
      rw [if_neg (by simp [hkv.trans hfalse])]
      simp only [List.filter_cons, hfalse, Bool.not_false, if_true]
      rw [ih hnd.2 (acc ++ [kv]) ?_]
      · simp
      · intro kv' h'
        rw [containsKey_append]
        have hne : kv.1 ≠ kv'.1 := hnd.1 kv' h'
        have : containsKey kv'.1 [kv] = false := by
          simp [containsKey]
          exact fun he => absurd he hne
        rw [this, Bool.or_false]
        exact hacc kv' (by simp [h'])

/-! ## Concrete fixtures used by witnesses and counterexamples -/

/-- A successful Google-shaped result dict with the given text. -/
def resText (t : String) : PyDict :=
  { text := some t, confidence := some "0.8", engine := some "google" }

/-- Three records "a", "b", "c" saved in that order at strictly increasing
timestamps (inserts in distinct seconds). -/
def dbStrict : List Row :=
  save_transcription
    (save_transcription
      (save_transcription [] (resText "a") "en-US" "google" 1)
      (resText "b") "en-US" "google" 2)
    (resText "c") "en-US" "google" 3

/-- Three records "a", "b", "c" saved in that order within the same
second, so all three rows carry the same timestamp. -/
def dbTied : List Row :=
  save_transcription
    (save_transcription
      (save_transcription [] (resText "a") "en-US" "google" 5)
      (resText "b") "en-US" "google" 5)
    (resText "c") "en-US" "google" 5

/-- C1 (amended): get_transcription_history(limit) returns at most `limit`
records, always ordered by timestamp (creation time) non-increasing, and —
when the saved timestamps strictly increase along insertion order — it is
exactly the reversed insertion order truncated to `limit`, so the records
come most recent first and saving "a","b","c" gives history(2) =
["c","b"].  The query itself has no tie-breaker beyond the timestamp. -/
theorem history_ordering_amended (db : List Row) (lim : Nat) :
    (get_transcription_history db lim).length ≤ lim
    ∧ (get_transcription_history db lim).Pairwise
        (fun a b => b.timestamp ≤ a.timestamp)
    ∧ (db.Pairwise (fun a b => a.timestamp < b.timestamp) →
        get_transcription_history db lim = (db.reverse.take lim).map rowToItem) := by
  refine ⟨?_, ?_, ?_⟩
  · unfold get_transcription_history
    rw [List.length_map]
    simp
  · unfold get_transcription_history
    rw [List.pairwise_map]
    have hs : ((sortDesc db).take lim).Pairwise DescBy :=
      (sorted_sortDesc db).sublist (List.take_sublist lim (sortDesc db))
    exact hs.imp (fun h => h)
  · intro h
    unfold get_transcription_history
    rw [sortDesc_of_strict db h]

/-- C1 counterexample: three records "a","b","c" saved within one second
(equal DATETIME values, second resolution).  `ORDER BY timestamp DESC`
has no tie-breaker, and the scan-order-stable sort returns the ties
oldest-first: history(2) is ["a","b"], not the ["c","b"] the claim
promises. -/
theorem history_tie_counterexample :
    (get_transcription_history dbTied 2).map HistItem.text = ["a", "b"]
    ∧ (get_transcription_history dbTied 2).map HistItem.text ≠ ["c", "b"] := by
  constructor
  · rfl
  · decide

/-- C1 witness: with strictly increasing timestamps the amended ordering
theorem yields the spec's example, history(2) = ["c","b"]. -/
theorem history_ordering_witness :
    (get_transcription_history dbStrict 2).map HistItem.text = ["c", "b"] := by
  have h := (history_ordering_amended dbStrict 2).2.2 (by decide)
  rw [h]
  rfl

/-- C3: evaluation of `_recognize_whisper` at a failing model load.  The
source unlinks the temporary file only after `model.transcribe` succeeds,
inside the `try`; when `whisper.load_model` (or the export or the
transcription) raises, control jumps to the `except` handler and the
`delete=False` temporary file is left on disk, even though the call still
returns an error dict.  On success the file is removed. -/
theorem whisper_tmpfile_leak :
    recognize_whisper (.loadFails "model load failed")
        = { error := some "Whisper error: model load failed" }
    ∧ whisper_tmpfile_left (.loadFails "model load failed") = true
    ∧ whisper_tmpfile_left (.transcribeFails "boom") = true
    ∧ whisper_tmpfile_left (.success "hi") = false := by
  decide

/-- C8: evaluation of `transcribe_file` at a successful file-based
recognition.  The returned dict carries `audio_file_path = "sample.wav"`,
but the INSERT in `_save_transcription` names only (text, language,
engine, confidence, metadata), so the persisted row's audio_file_path
column is NULL even for file-based transcription. -/
theorem audio_path_not_persisted :
    (transcribe_file {} ⟨.success "hello", .success "x"⟩ []
        "sample.wav" "en-US" "google" 7 .recorded).1.audio_file_path
      = some "sample.wav"
    ∧ (transcribe_file {} ⟨.success "hello", .success "x"⟩ []
        "sample.wav" "en-US" "google" 7 .recorded).2.map Row.audio_file_path
      = [none] := by
  decide

/-! ## Shape of every engine result -/

/-- Every dict a known engine can return is literally one of the two
shapes the source builds: a success dict {text, confidence, engine} or an
error dict {error}. -/
theorem engine_result_cases (cfg : Config) (o : Outcomes) (engine : String) :
    engine_lookup cfg o engine = none
    ∨ ∃ r, engine_lookup cfg o engine = some r ∧
        ((∃ t c e, r = { text := some t, confidence := some c, engine := some e })
         ∨ (∃ m, r = { error := some m })) := by
  unfold engine_lookup
  by_cases hg : engine = "google"
  · rw [if_pos hg]
    right
    refine ⟨_, rfl, ?_⟩
    cases o.google with
    | success t => exact Or.inl ⟨t, _, _, rfl⟩
    | unknownValue => exact Or.inr ⟨_, rfl⟩
    | requestError m => exact Or.inr ⟨_, rfl⟩
  · rw [if_neg hg]
    by_cases hw : engine = "whisper"
    · rw [if_pos hw]
      right
      refine ⟨_, rfl, ?_⟩
      cases o.whisper with
      | success t => exact Or.inl ⟨t, _, _, rfl⟩
      | exportFails m => exact Or.inr ⟨_, rfl⟩
      | loadFails m => exact Or.inr ⟨_, rfl⟩
      | transcribeFails m => exact Or.inr ⟨_, rfl⟩
    · rw [if_neg hw]
      by_cases ha : engine = "azure"
      · rw [if_pos ha]
        right
        refine ⟨_, rfl, ?_⟩
        unfold recognize_azure
        split
        · exact Or.inr ⟨_, rfl⟩
        · exact Or.inr ⟨_, rfl⟩
      · rw [if_neg ha]
        by_cases ho : engine = "openai"
        · rw [if_pos ho]
          right
          refine ⟨_, rfl, ?_⟩
          unfold recognize_openai
          split
          · exact Or.inr ⟨_, rfl⟩
          · exact Or.inr ⟨_, rfl⟩
        · rw [if_neg ho]
          exact Or.inl rfl

/-- C5: dispatching with an engine name outside the four-name table of
`_init_engines` returns exactly the "Unsupported engine" error dict (no
text, nothing else set) and leaves the database untouched; the right-hand
side does not mention the outcome environment `o`, so no back end is
consulted. -/
theorem unsupported_engine (cfg : Config) (o : Outcomes) (db : List Row)
    (language engine : String) (ts : Nat)
    (h : engine ∉ (["google", "whisper", "azure", "openai"] : List String)) :
    process_audio cfg o db language engine ts
      = ({ error := some ("Unsupported engine: " ++ engine) }, db) := by
  simp only [List.mem_cons, List.not_mem_nil, or_false, not_or] at h
  obtain ⟨h1, h2, h3, h4⟩ := h
  unfold process_audio engine_lookup
  rw [if_neg h1, if_neg h2, if_neg h3, if_neg h4]

/-- C5 witness: the spec's "unknown-engine" input at concrete state. -/
theorem unsupported_engine_witness :
    "unknown-engine" ∉ (["google", "whisper", "azure", "openai"] : List String)
    ∧ process_audio {} ⟨.success "x", .success "y"⟩ [] "en-US" "unknown-engine" 1
      = ({ error := some "Unsupported engine: unknown-engine" }, []) :=
  ⟨by decide,
   unsupported_engine {} ⟨.success "x", .success "y"⟩ [] "en-US" "unknown-engine" 1
     (by decide)⟩

/-- C4: along the dispatch path, the database grows exactly when the
engine's result dict carries a non-empty "text" value — then it grows by
the single row `_save_transcription` inserts — and is untouched otherwise;
a result with an error tag never creates a record, and every save is one
single-row append. -/
theorem save_iff_nonempty_text (cfg : Config) (o : Outcomes) (db : List Row)
    (language engine : String) (ts : Nat) :
    ((∃ t, (process_audio cfg o db language engine ts).1.text = some t ∧ t ≠ ""
        ∧ (process_audio cfg o db language engine ts).2
          = save_transcription db (process_audio cfg o db language engine ts).1
              language engine ts)
      ∨ (((process_audio cfg o db language engine ts).1.text = none
          ∨ (process_audio cfg o db language engine ts).1.text = some "")
        ∧ (process_audio cfg o db language engine ts).2 = db))
    ∧ ((process_audio cfg o db language engine ts).1.error.isSome = true
        → (process_audio cfg o db language engine ts).2 = db)
    ∧ (∀ r : PyDict, ∃ row, save_transcription db r language engine ts = db ++ [row]) := by
  refine ⟨?_, ?_, fun r => ⟨_, rfl⟩⟩
  · rcases engine_result_cases cfg o engine with hnone | ⟨r, hsome, hshape⟩
    · right
      unfold process_audio
      rw [hnone]
      exact ⟨Or.inl rfl, rfl⟩
    · rcases hshape with ⟨t, c, e, rfl⟩ | ⟨m, rfl⟩
      · by_cases ht : t = ""
        · right
          have hpair : process_audio cfg o db language engine ts
              = ({ text := some t, confidence := some c, engine := some e }, db) := by
            unfold process_audio
            rw [hsome]
            simp [ht]
          rw [hpair]
          subst ht
          exact ⟨Or.inr rfl, rfl⟩
        · left
          have hpair : process_audio cfg o db language engine ts
              = ({ text := some t, confidence := some c, engine := some e },
                 save_transcription db
                   { text := some t, confidence := some c, engine := some e }
                   language engine ts) := by
            unfold process_audio
            rw [hsome]
            simp [ht]
          rw [hpair]
          exact ⟨t, rfl, ht, rfl⟩
      · right
        have hpair : process_audio cfg o db language engine ts
            = ({ error := some m }, db) := by
          unfold process_audio
          rw [hsome]
        rw [hpair]
        exact ⟨Or.inl rfl, rfl⟩
  · rcases engine_result_cases cfg o engine with hnone | ⟨r, hsome, hshape⟩
    · intro _
      unfold process_audio
      rw [hnone]
    · rcases hshape with ⟨t, c, e, rfl⟩ | ⟨m, rfl⟩
      · by_cases ht : t = ""
        · have hpair : process_audio cfg o db language engine ts
              = ({ text := some t, confidence := some c, engine := some e }, db) := by
            unfold process_audio
            rw [hsome]
            simp [ht]
          rw [hpair]
          intro _
          rfl
        · have hpair : process_audio cfg o db language engine ts
              = ({ text := some t, confidence := some c, engine := some e },
                 save_transcription db
                   { text := some t, confidence := some c, engine := some e }
                   language engine ts) := by
            unfold process_audio
            rw [hsome]
            simp [ht]
          rw [hpair]
          intro hcontra
          simp at hcontra
      · have hpair : process_audio cfg o db language engine ts
            = ({ error := some m }, db) := by
          unfold process_audio
          rw [hsome]
        rw [hpair]
        intro _
        rfl

/-- The two result shapes of §4.2 of the spec: a success record with
text, confidence and engine name and no error tag, or an error record
with only a message.  Nothing constrains the audio_file_path key, which
`transcribe_file` adds to either shape. -/
def ResultShape (r : PyDict) : Prop :=
  (∃ t c e, r.text = some t ∧ r.confidence = some c ∧ r.engine = some e
    ∧ r.error = none)
  ∨ (∃ m, r.error = some m ∧ r.text = none ∧ r.confidence = none ∧ r.engine = none)

/-- C9: every dict the recognition path can return — from `_process_audio`
and from both entry points — is exactly one of the two shapes: a success
record carrying text, confidence and engine name, or a tagged error
carrying a message; never both a text payload and an error tag. -/
theorem result_shape (cfg : Config) (o : Outcomes) (db : List Row)
    (language engine file_path : String) (ts : Nat)
    (mic : MicOutcome) (fo : FileOutcome) :
    ResultShape (process_audio cfg o db language engine ts).1
    ∧ ResultShape (transcribe_microphone cfg o db language engine ts mic).1
    ∧ ResultShape (transcribe_file cfg o db file_path language engine ts fo).1 := by
  have hpa : ResultShape (process_audio cfg o db language engine ts).1 := by
    rcases engine_result_cases cfg o engine with hnone | ⟨r, hsome, hshape⟩
    · unfold process_audio
      rw [hnone]
      exact Or.inr ⟨_, rfl, rfl, rfl, rfl⟩
    · unfold process_audio
      rw [hsome]
      rcases hshape with ⟨t, c, e, rfl⟩ | ⟨m, rfl⟩
      · by_cases ht : t = "" <;>
          simp [ht, ResultShape]
      · exact Or.inr ⟨m, rfl, rfl, rfl, rfl⟩
  refine ⟨hpa, ?_, ?_⟩
  · cases mic with
    | captured => exact hpa
    | waitTimeout => exact Or.inr ⟨_, rfl, rfl, rfl, rfl⟩
    | otherError m => exact Or.inr ⟨_, rfl, rfl, rfl, rfl⟩
  · cases fo with
    | recordFails m => exact Or.inr ⟨_, rfl, rfl, rfl, rfl⟩
    | recorded =>
      unfold transcribe_file
      rcases hpa with ⟨t, c, e, h1, h2, h3, h4⟩ | ⟨m, h1, h2, h3, h4⟩
      · exact Or.inl ⟨t, c, e, h1, h2, h3, h4⟩
      · exact Or.inr ⟨m, h1, h2, h3, h4⟩

/-- C6: `export_transcriptions` raises `ValueError` (an exception, not an
error-tagged return value) exactly for formats outside {json, csv, txt},
producing no output; for the three supported formats it always returns
rendered text whatever the stored history holds — the format test is the
only validation. -/
theorem export_format_validation (db : List Row) (format : String) :
    (format ∉ (["json", "csv", "txt"] : List String) →
      export_transcriptions db format
        = .error ("Unsupported format: " ++ format))
    ∧ (format ∈ (["json", "csv", "txt"] : List String) →
      ∃ out, export_transcriptions db format = .ok out) := by
  constructor
  · intro h
    simp only [List.mem_cons, List.not_mem_nil, or_false, not_or] at h
    obtain ⟨h1, h2, h3⟩ := h
    unfold export_transcriptions
    rw [if_neg h1, if_neg h2, if_neg h3]
  · intro h
    have h3 : format = "json" ∨ format = "csv" ∨ format = "txt" := by
      simpa using h
    rcases h3 with rfl | rfl | rfl
    · exact ⟨_, by rfl⟩
    · have hc : export_transcriptions db "csv"
          = .ok (renderCsv (get_transcription_history db 100)) := by
        unfold export_transcriptions
        rw [if_neg (by decide), if_pos rfl]
      exact ⟨_, hc⟩
    · have ht : export_transcriptions db "txt"
          = .ok (renderTxt (get_transcription_history db 100)) := by
        unfold export_transcriptions
        rw [if_neg (by decide), if_neg (by decide), if_pos rfl]
      exact ⟨_, ht⟩

/-- C6 witness: the spec's example input "xml" is rejected with the
exact exception message, at a concrete store. -/
theorem export_format_validation_witness :
    "xml" ∉ (["json", "csv", "txt"] : List String)
    ∧ export_transcriptions [] "xml" = .error "Unsupported format: xml" :=
  ⟨by decide, (export_format_validation [] "xml").1 (by decide)⟩

/-- C7: `_load_config` never raises to its caller.  A missing file and a
read/parse failure both yield the complete default document; a parsed
document keeps every one of its own top-level entries verbatim (so
credentials are stored unvalidated, nested objects unrecursed — a
shallow, one-level merge) and every top-level key it lacks reads as the
default document's value. -/
theorem load_config_merge (doc : CDoc) (k : String) :
    load_config .missing = default_config
    ∧ load_config .unreadable = default_config
    ∧ (containsKey k doc = true →
        lookupKey k (load_config (.parsed doc)) = lookupKey k doc)
    ∧ (containsKey k doc = false →
        lookupKey k (load_config (.parsed doc)) = lookupKey k default_config) := by
  refine ⟨rfl, rfl, ?_, ?_⟩
  · intro h
    show lookupKey k (mergeDefaults doc) = lookupKey k doc
    rw [mergeDefaults_eq]
    exact lookupKey_append_left _ h
  · intro h
    show lookupKey k (mergeDefaults doc) = lookupKey k default_config
    rw [mergeDefaults_eq]
    rw [lookupKey_append_right _ h]
    exact lookupKey_filter_not_mem _ h

/-- A parsed document with one credential and a partially-given nested
audio_settings object, used to witness the merge. -/
def docW : CDoc := [("azure_key", .str "secret"), ("audio_settings", .obj [])]

/-- C7 witness: present keys survive unvalidated and unrecursed (the
empty audio_settings object is not refilled), absent keys read the
default. -/
theorem load_config_merge_witness :
    lookupKey "azure_key" (load_config (.parsed docW)) = some (.str "secret")
    ∧ lookupKey "audio_settings" (load_config (.parsed docW)) = some (.obj [])
    ∧ lookupKey "whisper_model" (load_config (.parsed docW)) = some (.str "base") := by
  refine ⟨?_, ?_, ?_⟩
  · exact ((load_config_merge docW "azure_key").2.2.1 (by rfl)).trans (by rfl)
  · exact ((load_config_merge docW "audio_settings").2.2.1 (by rfl)).trans (by rfl)
  · exact ((load_config_merge docW "whisper_model").2.2.2 (by rfl)).trans (by rfl)

theorem jsonDumpsObj_ne_empty (m : List (String × String)) : jsonDumpsObj m ≠ "" := by
  cases m with
  | nil => decide
  | cons kv r =>
    intro h
    have hd : (jsonDumpsObj (kv :: r)).data = [] := by rw [h]
    simp [jsonDumpsObj] at hd

/-- C10: the metadata mapping round-trips through persistence.  A result
saved with a string-keyed mapping m (serialized by `json.dumps` in
`_save_transcription`) comes back from `get_transcription_history` as a
record carrying a mapping equal to m (parsed by `json.loads`), and a
result saved without a metadata key comes back with the empty mapping.
Stated for the saved record when it is the most recent one and the limit
admits it, so it heads the history. -/
theorem metadata_roundtrip (db : List Row) (res : PyDict)
    (language engine : String) (ts lim : Nat)
    (hts : ∀ r ∈ db, r.timestamp < ts) (hlim : 1 ≤ lim) :
    (∀ m, res.metadata = some m → (m.map Prod.fst).Nodup →
      ((get_transcription_history (save_transcription db res language engine ts) lim).map
        HistItem.metadata).head? = some m)
    ∧ (res.metadata = none →
      ((get_transcription_history (save_transcription db res language engine ts) lim).map
        HistItem.metadata).head? = some []) := by
  obtain ⟨l, rfl⟩ : ∃ l, lim = l + 1 := ⟨lim - 1, by omega⟩
  have hmain :
      ((get_transcription_history (save_transcription db res language engine ts)
          (l + 1)).map HistItem.metadata).head?
        = some ((jsonLoadsObj (jsonDumpsObj (res.metadata.getD []))).getD []) := by
    unfold get_transcription_history save_transcription
    rw [sortDesc_append_one db _ (fun x hx => hts x hx)]
    rw [List.take_succ_cons]
    simp only [List.map_cons, List.head?_cons]
    congr 1
    unfold rowToItem
    simp only []
    rw [if_neg (jsonDumpsObj_ne_empty _)]
  constructor
  · intro m hm _
    rw [hmain, hm]
    simp [jsonLoadsObj_jsonDumpsObj]
  · intro hm
    rw [hmain, hm]
    simp [jsonLoadsObj_jsonDumpsObj]

/-- A result dict carrying a metadata mapping, for the round-trip
witness. -/
def resMetaW : PyDict :=
  { text := some "hi", confidence := some "0.8", engine := some "google",
    metadata := some [("k", "v")] }

/-- C10 witness: a concrete mapping written by save is read back equal by
the history query. -/
theorem metadata_roundtrip_witness :
    ((get_transcription_history (save_transcription [] resMetaW "en-US" "google" 3) 5).map
      HistItem.metadata).head? = some [("k", "v")] :=
  (metadata_roundtrip [] resMetaW "en-US" "google" 3 5 (by simp) (by omega)).1
    [("k", "v")] rfl (by decide)

/-! ## Export containment (C2) -/

theorem SubStr.trans {a b c : String} (hab : SubStr a b) (hbc : SubStr b c) :
    SubStr a c := by
  obtain ⟨p, q, rfl⟩ := hab
  obtain ⟨u, v, rfl⟩ := hbc
  exact ⟨u ++ p, q ++ v, by simp [String.append_assoc]⟩

theorem SubStr_jsonItem_text (i : HistItem) :
    SubStr (jsonStr i.text) (jsonItem i) := by
  unfold jsonItem
  exact (((((((((SubStr.appR _ (SubStr.refl _)).appL _).appL _).appL _).appL
    _).appL _).appL _).appL _).appL _).appL _

theorem SubStr_jsonItem_language (i : HistItem) (l : String)
    (h : i.language = some l) : SubStr (jsonStr l) (jsonItem i) := by
  unfold jsonItem
  rw [h]
  exact (((((((SubStr.appR _ (SubStr.refl _)).appL _).appL _).appL _).appL
    _).appL _).appL _).appL _

theorem SubStr_jsonItem_engine (i : HistItem) (e : String)
    (h : i.engine = some e) : SubStr (jsonStr e) (jsonItem i) := by
  unfold jsonItem
  rw [h]
  exact (((((SubStr.appR _ (SubStr.refl _)).appL _).appL _).appL _).appL
    _).appL _

theorem SubStr_jsonItem_confidence (i : HistItem) :
    SubStr i.confidence (jsonItem i) := by
  unfold jsonItem
  exact (((SubStr.appR _ (SubStr.refl _)).appL _).appL _).appL _

theorem SubStr_csvRow_text (i : HistItem) :
    SubStr (csvField i.text) (csvRow i) := by
  unfold csvRow
  exact (((((((((SubStr.appR _ (SubStr.refl _)).appL _).appL _).appL _).appL
    _).appL _).appL _).appL _).appL _).appL _

theorem SubStr_csvRow_language (i : HistItem) (l : String)
    (h : i.language = some l) : SubStr (csvField l) (csvRow i) := by
  unfold csvRow
  rw [h]
  simp only [csvOpt]
  exact (((((((SubStr.appR _ (SubStr.refl _)).appL _).appL _).appL _).appL
    _).appL _).appL _).appL _

theorem SubStr_csvRow_engine (i : HistItem) (e : String)
    (h : i.engine = some e) : SubStr (csvField e) (csvRow i) := by
  unfold csvRow
  rw [h]
  simp only [csvOpt]
  exact (((((SubStr.appR _ (SubStr.refl _)).appL _).appL _).appL _).appL
    _).appL _

theorem SubStr_csvRow_confidence (i : HistItem) :
    SubStr i.confidence (csvRow i) := by
  unfold csvRow
  exact (((SubStr.appR _ (SubStr.refl _)).appL _).appL _).appL _

theorem SubStr_txtLine_text (i : HistItem) : SubStr i.text (txtLine i) := by
  unfold txtLine
  exact SubStr.appR _ (SubStr.refl _)

theorem SubStr_txtLine_ts (i : HistItem) :
    SubStr (tsRender i.timestamp) (txtLine i) := by
  unfold txtLine
  exact ((SubStr.refl _).appL _).appL _

theorem SubStr_renderJson {x : String} {i : HistItem} {items : List HistItem}
    (hmem : i ∈ items) (hx : SubStr x (jsonItem i)) :
    SubStr x (renderJson items) := by
  cases items with
  | nil => simp at hmem
  | cons hd tl =>
    have hj : SubStr (jsonItem i) (joinSep ",\n" ((hd :: tl).map jsonItem)) :=
      SubStr_joinSep _ _ _ (List.mem_map_of_mem jsonItem hmem)
    exact (SubStr.appR "[\n" (hx.trans hj)).appL "\n]"

theorem SubStr_renderCsv {x : String} {i : HistItem} {items : List HistItem}
    (hmem : i ∈ items) (hx : SubStr x (csvRow i)) :
    SubStr x (renderCsv items) := by
  cases items with
  | nil => simp at hmem
  | cons hd tl =>
    have hj : SubStr (csvRow i) (joinSep "" ((hd :: tl).map csvRow)) :=
      SubStr_joinSep _ _ _ (List.mem_map_of_mem csvRow hmem)
    exact SubStr.appR "id,timestamp,text,language,engine,confidence,metadata\n"
      (hx.trans hj)

theorem SubStr_renderTxt {x : String} {i : HistItem} {items : List HistItem}
    (hmem : i ∈ items) (hx : SubStr x (txtLine i)) :
    SubStr x (renderTxt items) := by
  have hj : SubStr (txtLine i) (joinSep "\n" (items.map txtLine)) :=
    SubStr_joinSep _ _ _ (List.mem_map_of_mem txtLine hmem)
  exact hx.trans hj

/-- One record saved with engine "whisper", used to exhibit the txt
export's field loss. -/
def dbC2 : List Row :=
  save_transcription []
    { text := some "hello", confidence := some "0.9", engine := some "whisper" }
    "en-US" "whisper" 1

/-- C2 counterexample: for the txt format the export of a saved record
contains neither its engine ("whisper"), nor its language ("en-US"), nor
its confidence ("0.9") — the txt line renders only timestamp and text, so
those fields are lost, against the claim that every supported format
round-trips all four fields. -/
theorem export_txt_loses_fields :
    dbC2.map Row.engine = [some "whisper"]
    ∧ dbC2.map Row.language = [some "en-US"]
    ∧ dbC2.map Row.confidence = ["0.9"]
    ∧ export_transcriptions dbC2 "txt" = .ok "1: hello"
    ∧ containsStr "1: hello" "whisper" = false
    ∧ containsStr "1: hello" "en-US" = false
    ∧ containsStr "1: hello" "0.9" = false
    ∧ ¬ SubStr "whisper" "1: hello" := by
  refine ⟨by decide, by decide, by decide, by rfl, by decide, by decide, by decide, ?_⟩
  intro hsub
  have := containsStr_of_SubStr hsub
  exact absurd this (by decide)

/-- C2 (amended): for the json and csv formats the export contains every
exported record's text, language, engine and confidence (as the
JSON-escaped string literal respectively the CSV-quoted field, which are
the values verbatim whenever they need no escaping); the txt format
contains only the record's timestamp and text.  "Every exported record"
means every member of the history the export reads, which the source
caps at the 100 most recent. -/
theorem export_fields_amended (db : List Row) (i : HistItem)
    (h : i ∈ get_transcription_history db 100) :
    (∃ out, export_transcriptions db "json" = .ok out
      ∧ SubStr (jsonStr i.text) out
      ∧ (∀ l, i.language = some l → SubStr (jsonStr l) out)
      ∧ (∀ e, i.engine = some e → SubStr (jsonStr e) out)
      ∧ SubStr i.confidence out)
    ∧ (∃ out, export_transcriptions db "csv" = .ok out
      ∧ SubStr (csvField i.text) out
      ∧ (∀ l, i.language = some l → SubStr (csvField l) out)
      ∧ (∀ e, i.engine = some e → SubStr (csvField e) out)
      ∧ SubStr i.confidence out)
    ∧ (∃ out, export_transcriptions db "txt" = .ok out
      ∧ SubStr i.text out
      ∧ SubStr (tsRender i.timestamp) out) := by
  refine ⟨⟨renderJson (get_transcription_history db 100), ?_, ?_, ?_, ?_, ?_⟩,
    ⟨renderCsv (get_transcription_history db 100), ?_, ?_, ?_, ?_, ?_⟩,
    ⟨renderTxt (get_transcription_history db 100), ?_, ?_, ?_⟩⟩
  · rfl
  · exact SubStr_renderJson h (SubStr_jsonItem_text i)
  · exact fun l hl => SubStr_renderJson h (SubStr_jsonItem_language i l hl)
  · exact fun e he => SubStr_renderJson h (SubStr_jsonItem_engine i e he)
  · exact SubStr_renderJson h (SubStr_jsonItem_confidence i)
  · unfold export_transcriptions
    rw [if_neg (by decide), if_pos rfl]
  · exact SubStr_renderCsv h (SubStr_csvRow_text i)
  · exact fun l hl => SubStr_renderCsv h (SubStr_csvRow_language i l hl)
  · exact fun e he => SubStr_renderCsv h (SubStr_csvRow_engine i e he)
  · exact SubStr_renderCsv h (SubStr_csvRow_confidence i)
  · unfold export_transcriptions
    rw [if_neg (by decide), if_neg (by decide), if_pos rfl]
  · exact SubStr_renderTxt h (SubStr_txtLine_text i)
  · exact SubStr_renderTxt h (SubStr_txtLine_ts i)

/-- The database holding one saved record for the export witness. -/
def dbW2 : List Row := save_transcription [] (resText "hello") "en-US" "google" 4

/-- The history record stored in `dbW2` as the export reads it. -/
def itemW2 : HistItem :=
  { id := 1, timestamp := 4, text := "hello", language := some "en-US",
    engine := some "google", confidence := "0.8", metadata := [] }

/-- C2 witness: the amended containment at a concrete saved record. -/
theorem export_fields_amended_witness :
    (∃ out, export_transcriptions dbW2 "json" = .ok out
      ∧ SubStr (jsonStr itemW2.text) out
      ∧ (∀ l, itemW2.language = some l → SubStr (jsonStr l) out)
      ∧ (∀ e, itemW2.engine = some e → SubStr (jsonStr e) out)
      ∧ SubStr itemW2.confidence out)
    ∧ (∃ out, export_transcriptions dbW2 "csv" = .ok out
      ∧ SubStr (csvField itemW2.text) out
      ∧ (∀ l, itemW2.language = some l → SubStr (csvField l) out)
      ∧ (∀ e, itemW2.engine = some e → SubStr (csvField e) out)
      ∧ SubStr itemW2.confidence out)
    ∧ (∃ out, export_transcriptions dbW2 "txt" = .ok out
      ∧ SubStr itemW2.text out
      ∧ SubStr (tsRender itemW2.timestamp) out) :=
  export_fields_amended dbW2 itemW2 (by decide)

end STT
